import Mathlib

/-!
# Verification of the quantitative analytics core

A shallow embedding in Lean 4 of the analytics core of the
Stock-AI-Based-Strategy-System repository: the Monte Carlo simulator,
option pricer, Sharpe-ratio portfolio allocator, row-to-PricePoint
adapter (all from the dashboard component), and the series generator,
technical-indicator engine and backtest (from `stockAnalytics.ts`).

JavaScript numbers are modelled as `ℚ` where the source only uses field
arithmetic, and as `ℝ` where the source calls `Math.sqrt` / `Math.exp` /
`Math.log`.  Every call to `Math.random()` is modelled by an explicit
stream of rational draws in `[0,1)` passed in as a function argument.
`x || y` on JavaScript numbers (which falls through on `0` and
`undefined`) is modelled by `jsOr` on `Option ℚ`.
-/

/-! ## Monte Carlo simulator (`runMonteCarloSimulation`)

The source runs `simulations = 10000` trials of `timeHorizon = 252`
daily steps `price ← price * (1 + 0.0008 + (rand - 0.5) * 0.02 * 2)`,
collects the terminal price of each trial, sorts the collected array
in place ascending, and reads `var95`/`var99` at indices
`floor(10000*0.05)` / `floor(10000*0.01)`, the mean, and the first 100
entries (of the sorted array) as the display sample.
`rand i day` is the `Math.random()` draw of trial `i`, day `day`. -/

/-- One daily step of a Monte Carlo trial:
`price * (1 + dailyReturn + randomShock)` with `dailyReturn = 0.0008`,
`randomShock = (r - 0.5) * dailyVolatility * 2`, `dailyVolatility = 0.02`. -/
def mcStep (r p : ℚ) : ℚ := p * (1 + 0.0008 + (r - 0.5) * (0.02 * 2))

/-- One Monte Carlo trial: 252 daily steps starting from `start`,
day `d` using the draw `rand d`. -/
def mcTrial (rand : ℕ → ℚ) (start : ℚ) : ℚ :=
  (List.range 252).foldl (fun p day => mcStep (rand day) p) start

/-- The 10000 terminal prices, in trial order (`results` before the sort). -/
def mcTerminalPrices (start : ℚ) (rand : ℕ → ℕ → ℚ) : List ℚ :=
  (List.range 10000).map (fun i => mcTrial (rand i) start)

/-- The terminal prices after `results.sort((a, b) => a - b)`
(ascending). -/
def mcSorted (start : ℚ) (rand : ℕ → ℕ → ℚ) : List ℚ :=
  (mcTerminalPrices start rand).mergeSort

/-- The result record set by `setMonteCarloResults`. -/
structure MCResult where
  expectedValue : ℚ
  var95 : ℚ
  var99 : ℚ
  confidence95 : ℚ
  confidence99 : ℚ
  simulations : List ℚ
  deriving Repr

/-- `runMonteCarloSimulation` from the dashboard component.  `start` is
`stockData[stockData.length - 1]?.close || 100`; `rand i day` is the
`Math.random()` draw used by trial `i` on day `day`.  Note the source
sorts `results` in place before taking `var95`, `var99`, the mean and
the `slice(0, 100)` sample, so all of them read the sorted array. -/
def runMonteCarloSimulation (start : ℚ) (rand : ℕ → ℕ → ℚ) : MCResult :=
  let results := mcSorted start rand
  let var95 := results.getD (Nat.floor ((10000 : ℚ) * 0.05)) 0
  let var99 := results.getD (Nat.floor ((10000 : ℚ) * 0.01)) 0
  let expectedValue := results.sum / 10000
  { expectedValue := expectedValue
    var95 := var95
    var99 := var99
    confidence95 := var95
    confidence99 := var99
    simulations := results.take 100 }

/-! ## Helper lemmas about the Monte Carlo embedding -/

/-- Folding a step that fixes every element of the list is the identity. -/
theorem foldl_id_of_mem {α : Type} (l : List α) (g : ℚ → α → ℚ)
    (h : ∀ p, ∀ d ∈ l, g p d = p) (s : ℚ) : l.foldl g s = s := by
  induction l generalizing s with
  | nil => rfl
  | cons a t ih =>
    rw [List.foldl_cons, h s a (List.mem_cons_self a t)]
    exact ih (fun p d hd => h p d (List.mem_cons_of_mem a hd)) s

theorem mcSorted_length (start : ℚ) (rand : ℕ → ℕ → ℚ) :
    (mcSorted start rand).length = 10000 := by
  simp [mcSorted, mcTerminalPrices, List.length_mergeSort]

theorem mcSorted_sorted (start : ℚ) (rand : ℕ → ℕ → ℚ) :
    (mcSorted start rand).Sorted (· ≤ ·) :=
  List.sorted_mergeSort' _

/-- `C8`: For every Monte Carlo run, `var95` equals the element at index
`floor(0.05·paths)` and `var99` the element at index `floor(0.01·paths)`
of the ascending-sorted terminal prices (with `paths = 10000`, indices
500 and 100 respectively), and consequently `var99 ≤ var95`. -/
theorem monteCarlo_var_quantiles (start : ℚ) (rand : ℕ → ℕ → ℚ) :
    (runMonteCarloSimulation start rand).var95
        = (mcSorted start rand).getD (Nat.floor ((10000 : ℚ) * 0.05)) 0
      ∧ (runMonteCarloSimulation start rand).var99
        = (mcSorted start rand).getD (Nat.floor ((10000 : ℚ) * 0.01)) 0
      ∧ Nat.floor ((10000 : ℚ) * 0.05) = 500
      ∧ Nat.floor ((10000 : ℚ) * 0.01) = 100
      ∧ (runMonteCarloSimulation start rand).var99
        ≤ (runMonteCarloSimulation start rand).var95 := by
  have h500 : Nat.floor ((10000 : ℚ) * 0.05) = 500 := by norm_num
  have h100 : Nat.floor ((10000 : ℚ) * 0.01) = 100 := by norm_num
  refine ⟨rfl, rfl, h500, h100, ?_⟩
  have hlen : (mcSorted start rand).length = 10000 := mcSorted_length start rand
  have h1 : (100 : ℕ) < (mcSorted start rand).length := by omega
  have h2 : (500 : ℕ) < (mcSorted start rand).length := by omega
  show (mcSorted start rand).getD (Nat.floor ((10000 : ℚ) * 0.01)) 0
      ≤ (mcSorted start rand).getD (Nat.floor ((10000 : ℚ) * 0.05)) 0
  rw [h500, h100, List.getD_eq_get _ _ h1, List.getD_eq_get _ _ h2]
  exact (mcSorted_sorted start rand).rel_get_of_le (by simp [Fin.le_def])

/-! ## C1: the display sample is a prefix of the *sorted* terminal prices

`results.sort((a, b) => a - b)` sorts the `results` array in place, so
the subsequent `results.slice(0, 100)` reads the first 100 entries of
the ascending-sorted array — not the first 100 trials in trial order.
The random stream below keeps every trial at its start price (a draw of
`0.48` makes the step multiplier exactly `1`) except trial 0, whose
first day draws `0.73` (multiplier `1.01`), so trial order starts with
the largest terminal price while sorted order starts with the smallest. -/

/-- Concrete random stream for the counterexample: all draws `0.48`
(step multiplier exactly 1) except trial 0, day 0, which draws `0.73`
(step multiplier `1.01`).  All draws lie in `[0,1)`. -/
def mcCexRand : ℕ → ℕ → ℚ := fun i day => if i = 0 ∧ day = 0 then 0.73 else 0.48

theorem mcStep_of_pt48 (p : ℚ) : mcStep 0.48 p = p := by
  unfold mcStep; norm_num

theorem mcTrial_cex_of_ne (i : ℕ) (hi : i ≠ 0) (s : ℚ) :
    mcTrial (mcCexRand i) s = s := by
  refine foldl_id_of_mem _ _ (fun p d _ => ?_) s
  have : mcCexRand i d = 0.48 := by simp [mcCexRand, hi]
  rw [this, mcStep_of_pt48]

theorem mcTrial_cex_zero : mcTrial (mcCexRand 0) 100 = 101 := by
  have h00 : mcCexRand 0 0 = 0.73 := by simp [mcCexRand]
  have hstep : mcStep (mcCexRand 0 0) 100 = 101 := by
    rw [h00]; unfold mcStep; norm_num
  unfold mcTrial
  rw [show (252 : ℕ) = 251 + 1 from rfl, List.range_succ_eq_map,
    List.foldl_cons, List.foldl_map]
  simp only [hstep]
  refine foldl_id_of_mem _ _ (fun p d _ => ?_) 101
  have h : mcCexRand 0 (Nat.succ d) = 0.48 := by simp [mcCexRand]
  rw [h, mcStep_of_pt48]

theorem mcTerminalPrices_cex :
    mcTerminalPrices 100 mcCexRand = 101 :: List.replicate 9999 100 := by
  have hmap : ∀ n ∈ List.range 9999,
      mcTrial (mcCexRand (Nat.succ n)) 100 = (fun _ => (100 : ℚ)) n :=
    fun n _ => mcTrial_cex_of_ne (Nat.succ n) (Nat.succ_ne_zero n) 100
  unfold mcTerminalPrices
  rw [show (10000 : ℕ) = 9999 + 1 from rfl, List.range_succ_eq_map]
  simp only [List.map_cons, List.map_map, Function.comp_def]
  rw [mcTrial_cex_zero, List.map_congr_left hmap, List.map_const', List.length_range]

/-- `C1` (counterexample): on the explicit random stream `mcCexRand`
(start price 100), the result's `simulations` sample is *not* the first
100 terminal prices in original (unsorted) trial order: the in-place
sort has run first, so the sample starts with the smallest terminal
price (100) while trial order starts with trial 0's price (101). -/
theorem monteCarlo_sample_not_trial_order :
    (runMonteCarloSimulation 100 mcCexRand).simulations
      ≠ (mcTerminalPrices 100 mcCexRand).take 100 := by
  intro hEq
  have hsim : (runMonteCarloSimulation 100 mcCexRand).simulations
      = (mcSorted 100 mcCexRand).take 100 := rfl
  have hlen : (mcSorted 100 mcCexRand).length = 10000 := mcSorted_length 100 mcCexRand
  obtain ⟨a, t, hat⟩ : ∃ a t, mcSorted 100 mcCexRand = a :: t := by
    cases h : mcSorted 100 mcCexRand with
    | nil => rw [h] at hlen; simp at hlen
    | cons a t => exact ⟨a, t, rfl⟩
  have hperm : (mcSorted 100 mcCexRand).Perm (101 :: List.replicate 9999 100) := by
    rw [mcSorted, mcTerminalPrices_cex]; exact List.mergeSort_perm _ _
  have hsorted : (mcSorted 100 mcCexRand).Sorted (· ≤ ·) := mcSorted_sorted 100 mcCexRand
  -- the head of the sorted list is 100
  have ha_mem : a ∈ (101 :: List.replicate 9999 100 : List ℚ) := by
    refine hperm.mem_iff.mp ?_
    rw [hat]; exact List.mem_cons_self a t
  have h100_mem : (100 : ℚ) ∈ a :: t := by
    rw [← hat]
    refine hperm.mem_iff.mpr ?_
    exact List.mem_cons_of_mem _ (List.mem_replicate.mpr ⟨by norm_num, rfl⟩)
  have ha_le : a ≤ 100 := by
    rcases List.mem_cons.mp h100_mem with h | h
    · exact le_of_eq h.symm
    · rw [hat] at hsorted
      exact (List.sorted_cons.mp hsorted).1 100 h
  have ha : a = 100 := by
    rcases List.mem_cons.mp ha_mem with h | h
    · exfalso; rw [h] at ha_le; norm_num at ha_le
    · exact (List.eq_of_mem_replicate h)
  -- but the head of the unsorted list is 101
  rw [hsim, hat, ha, mcTerminalPrices_cex,
    show (100 : ℕ) = 99 + 1 from rfl, List.take_succ_cons, List.take_succ_cons] at hEq
  simp only [List.cons.injEq] at hEq
  exact absurd hEq.1 (by norm_num)

/-- `C1` (amended): the `simulations` sample is the first 100 entries of
the ascending-*sorted* terminal prices, and its length is
`min 100 10000 = min(100, paths)`. -/
theorem monteCarlo_sample_sorted_prefix (start : ℚ) (rand : ℕ → ℕ → ℚ) :
    (runMonteCarloSimulation start rand).simulations
        = (mcSorted start rand).take 100
      ∧ (runMonteCarloSimulation start rand).simulations.length = min 100 10000 := by
  refine ⟨rfl, ?_⟩
  show ((mcSorted start rand).take 100).length = min 100 10000
  rw [List.length_take, mcSorted_length]

/-! ## Series generator (`generateMockStockData`), C2

Inside the day loop the source advances
`currentPrice = currentPrice * (1 + drift + randomChange)` with
`drift = 0.0002` and `randomChange = (Math.random() - 0.5) * volatility`,
`volatility = 0.02`.  Note the shock is *not* multiplied by 2 here
(unlike the Monte Carlo simulator), so it ranges over `[-0.01, 0.01)`,
not `[-0.02, 0.02]`. -/

/-- The generator's noise term: `(r - 0.5) * volatility` with
`volatility = 0.02`, where `r` is the `Math.random()` draw. -/
def genNoise (r : ℚ) : ℚ := (r - 0.5) * 0.02

/-- One day step of the generator's price random walk:
`price * (1 + drift + noise)` with `drift = 0.0002`. -/
def genPriceStep (r p : ℚ) : ℚ := p * (1 + 0.0002 + genNoise r)

/-- `currentPrice` after loop iteration `n` of `generateMockStockData`,
starting from the symbol's base price; iteration `n` consumes the
draw `rand n`. -/
def genPricePath (rand : ℕ → ℚ) (basePrice : ℚ) : ℕ → ℚ
  | 0 => genPriceStep (rand 0) basePrice
  | n + 1 => genPriceStep (rand (n + 1)) (genPricePath rand basePrice n)

/-- Modelled from the spec: a noise draw "uniform on
`[-volatility, volatility]` with `volatility = 0.02`", realized from a
uniform draw `r ∈ [0,1)` by the standard affine scaling
`(r - 0.5) * volatility * 2` (the very transform the repository's own
Monte Carlo simulator uses for a symmetric `±0.02` shock). -/
def specUniformNoise (r : ℚ) : ℚ := (r - 0.5) * (0.02 * 2)

/-- `C2` (counterexample): at the explicit draw `r = 0.75` the
generator's day step multiplies by `1 + 0.0002 + 0.005`, not by
`1 + 0.0002 + 0.01` as a noise uniform on `[-0.02, 0.02]` would give:
the generator's noise is `(r - 0.5)·0.02 ∈ [-0.01, 0.01)`, half the
claimed amplitude. -/
theorem genStep_noise_not_spec_amplitude :
    genPriceStep 0.75 100 ≠ 100 * (1 + 0.0002 + specUniformNoise 0.75)
      ∧ genNoise 0.75 = 0.005 ∧ specUniformNoise 0.75 = 0.01 := by
  refine ⟨?_, ?_, ?_⟩ <;> norm_num [genPriceStep, genNoise, specUniformNoise]

/-- `C2` (amended): for every day step (with a draw in `[0,1)`), the
price is advanced by `price · (1 + drift + noise)` with constant drift
`0.0002` and noise `(r - 0.5)·0.02`, which ranges over `[-0.01, 0.01)`
— i.e. uniform with amplitude `volatility/2 = 0.01`, not `0.02`. -/
theorem genStep_drift_and_noise_range (rand : ℕ → ℚ) (basePrice : ℚ) (n : ℕ)
    (h0 : 0 ≤ rand (n + 1)) (h1 : rand (n + 1) < 1) :
    genPricePath rand basePrice (n + 1)
        = genPricePath rand basePrice n * (1 + 0.0002 + genNoise (rand (n + 1)))
      ∧ -0.01 ≤ genNoise (rand (n + 1)) ∧ genNoise (rand (n + 1)) < 0.01 := by
  refine ⟨rfl, ?_, ?_⟩ <;> (unfold genNoise; nlinarith)

/-- Witness for `genStep_drift_and_noise_range` at the concrete draw
stream `fun _ => 1/4` and base price 100. -/
theorem genStep_drift_and_noise_range_witness :
    ((0 : ℚ) ≤ (fun _ : ℕ => (1/4 : ℚ)) 1 ∧ (fun _ : ℕ => (1/4 : ℚ)) 1 < 1)
      ∧ (genPricePath (fun _ => 1/4) 100 1
          = genPricePath (fun _ => 1/4) 100 0
              * (1 + 0.0002 + genNoise ((fun _ : ℕ => (1/4 : ℚ)) 1))
        ∧ -0.01 ≤ genNoise ((fun _ : ℕ => (1/4 : ℚ)) 1)
        ∧ genNoise ((fun _ : ℕ => (1/4 : ℚ)) 1) < 0.01) :=
  ⟨⟨by norm_num, by norm_num⟩,
    genStep_drift_and_noise_range (fun _ => 1/4) 100 0 (by norm_num) (by norm_num)⟩

/-! ## Sharpe-ratio portfolio allocator (`optimizePortfolio`), C3

The source computes `sharpeRatios[i] = returns[i] / volatilities[i]`,
`totalSharpe = Σ sharpeRatios`, and
`optimalWeights[i] = sharpeRatios[i] / totalSharpe * 100` — the weights
are *percentages* summing to 100, not fractions summing to 1. -/

/-- The weight computation of `optimizePortfolio`, factored over its
(in the source, hard-coded) parallel input arrays. -/
def sharpeWeights (returns volatilities : List ℚ) : List ℚ :=
  let sharpeRatios := List.zipWith (· / ·) returns volatilities
  let totalSharpe := sharpeRatios.sum
  sharpeRatios.map (fun sharpe => sharpe / totalSharpe * 100)

/-- The hard-coded asset universe of `optimizePortfolio`. -/
def optAssets : List String := ["Tech", "Healthcare", "Finance", "Energy", "Consumer"]

/-- The hard-coded expected returns of `optimizePortfolio`. -/
def optReturns : List ℚ := [0.12, 0.08, 0.06, 0.10, 0.07]

/-- The hard-coded volatilities of `optimizePortfolio`. -/
def optVolatilities : List ℚ := [0.20, 0.15, 0.12, 0.25, 0.14]

/-- The `optimizedPortfolio` record built by `optimizePortfolio`. -/
structure OptimizedPortfolio where
  assets : List String
  weights : List ℚ
  expectedReturn : ℚ
  expectedVolatility : ℝ

/-- `optimizePortfolio` from the dashboard component. -/
noncomputable def optimizePortfolio : OptimizedPortfolio :=
  let optimalWeights := sharpeWeights optReturns optVolatilities
  { assets := optAssets
    weights := optimalWeights
    expectedReturn :=
      (List.zipWith (fun ret w => ret * (w / 100)) optReturns optimalWeights).sum
    expectedVolatility :=
      Real.sqrt
        (((List.zipWith (fun vol w => (vol * (w / 100)) ^ 2)
            optVolatilities optimalWeights).sum : ℚ)) }

theorem sum_map_mul_rat (l : List ℚ) (c : ℚ) :
    (l.map (fun x => x * c)).sum = l.sum * c := by
  induction l with
  | nil => simp
  | cons a t ih => simp [ih, add_mul]

theorem zipWith_div_pos :
    ∀ (rs vs : List ℚ), (∀ r ∈ rs, 0 < r) → (∀ v ∈ vs, 0 < v) →
      ∀ x ∈ List.zipWith (· / ·) rs vs, 0 < x := by
  intro rs
  induction rs with
  | nil => intro vs _ _ x hx; simp at hx
  | cons r rt ih =>
    intro vs hr hv x hx
    cases vs with
    | nil => simp at hx
    | cons v vt =>
      rcases List.mem_cons.mp hx with h | h
      · subst h
        exact div_pos (hr r (List.mem_cons_self r rt)) (hv v (List.mem_cons_self v vt))
      · exact ih vt (fun a ha => hr a (List.mem_cons_of_mem r ha))
          (fun a ha => hv a (List.mem_cons_of_mem v ha)) x h

/-- Core fact about `sharpeWeights`: on any equal-length, strictly
positive inputs the weights are the Sharpe ratios rescaled by a single
positive factor, and they sum to 100. -/
theorem sharpeWeights_spec (returns volatilities : List ℚ)
    (hne : returns ≠ []) (hlen : returns.length = volatilities.length)
    (hr : ∀ r ∈ returns, 0 < r) (hv : ∀ v ∈ volatilities, 0 < v) :
    (sharpeWeights returns volatilities).sum = 100
      ∧ ∃ c : ℚ, 0 < c ∧ sharpeWeights returns volatilities
          = (List.zipWith (· / ·) returns volatilities).map (fun s => s * c) := by
  have hpos : ∀ x ∈ List.zipWith (· / ·) returns volatilities, 0 < x :=
    zipWith_div_pos returns volatilities hr hv
  have hzne : List.zipWith (· / ·) returns volatilities ≠ [] := by
    intro h
    have h2 := congrArg List.length h
    rw [List.length_zipWith, ← hlen] at h2
    simp at h2
    exact hne h2
  have htot : 0 < (List.zipWith (· / ·) returns volatilities).sum :=
    List.sum_pos _ hpos hzne
  have hrw : sharpeWeights returns volatilities
      = (List.zipWith (· / ·) returns volatilities).map
          (fun s => s * (100 / (List.zipWith (· / ·) returns volatilities).sum)) := by
    unfold sharpeWeights
    exact List.map_congr_left (fun s _ => by ring)
  constructor
  · rw [hrw, sum_map_mul_rat, mul_div_cancel₀ _ htot.ne']
  · exact ⟨_, div_pos (by norm_num) htot, hrw⟩

theorem optReturns_pos : ∀ r ∈ optReturns, 0 < r := by
  intro r hr; fin_cases hr <;> norm_num

theorem optVolatilities_pos : ∀ v ∈ optVolatilities, 0 < v := by
  intro v hv; fin_cases hv <;> norm_num

/-- `C3` (counterexample): on the hard-coded five-asset universe the
output weights sum to `100` (they are percentages), not to `1` within
`1e-9`. -/
theorem sharpeWeights_sum_not_one :
    optimizePortfolio.weights = sharpeWeights optReturns optVolatilities
      ∧ (sharpeWeights optReturns optVolatilities).sum = 100
      ∧ ¬ |(sharpeWeights optReturns optVolatilities).sum - 1| ≤ 1e-9 := by
  have hsum := (sharpeWeights_spec optReturns optVolatilities
    (by simp [optReturns]) rfl optReturns_pos optVolatilities_pos).1
  refine ⟨rfl, hsum, ?_⟩
  rw [hsum]; norm_num

/-- `C3` (amended): for any equal-length inputs with strictly positive
returns and volatilities, the weight of asset `i` is proportional to
`return_i / volatility_i` (a single positive factor `c` scales the
Sharpe-ratio vector), and the weights sum to `100` (percentage points),
i.e. the corresponding fractions `weight/100` sum to 1. -/
theorem sharpeWeights_proportional_sum_100 (returns volatilities : List ℚ)
    (hne : returns ≠ []) (hlen : returns.length = volatilities.length)
    (hr : ∀ r ∈ returns, 0 < r) (hv : ∀ v ∈ volatilities, 0 < v) :
    (sharpeWeights returns volatilities).sum = 100
      ∧ ∃ c : ℚ, 0 < c ∧ sharpeWeights returns volatilities
          = (List.zipWith (· / ·) returns volatilities).map (fun s => s * c) :=
  sharpeWeights_spec returns volatilities hne hlen hr hv

/-- Witness for `sharpeWeights_proportional_sum_100` at the hard-coded
five-asset universe. -/
theorem sharpeWeights_proportional_sum_100_witness :
    (optReturns ≠ [] ∧ optReturns.length = optVolatilities.length
        ∧ (∀ r ∈ optReturns, 0 < r) ∧ (∀ v ∈ optVolatilities, 0 < v))
      ∧ ((sharpeWeights optReturns optVolatilities).sum = 100
        ∧ ∃ c : ℚ, 0 < c ∧ sharpeWeights optReturns optVolatilities
            = (List.zipWith (· / ·) optReturns optVolatilities).map (fun s => s * c)) :=
  ⟨⟨by simp [optReturns], rfl, optReturns_pos, optVolatilities_pos⟩,
    sharpeWeights_proportional_sum_100 optReturns optVolatilities
      (by simp [optReturns]) rfl optReturns_pos optVolatilities_pos⟩

/-! ## Data model

`StockData` from `stockAnalytics.ts`: base OHLCV fields plus the
optional derived fields the indicator engine attaches.  The TypeScript
field `open` is a Lean keyword and is rendered `openP`.  `upperBB` and
`lowerBB` carry a `Math.sqrt` value and are modelled over `ℝ`; all
other numeric fields are `ℚ`. -/

structure StockData where
  date : String
  openP : ℚ
  high : ℚ
  low : ℚ
  close : ℚ
  volume : ℚ
  ma20 : Option ℚ := none
  ma50 : Option ℚ := none
  rsi : Option ℚ := none
  macd : Option ℚ := none
  macdSignal : Option ℚ := none
  upperBB : Option ℝ := none
  lowerBB : Option ℝ := none
  portfolio : Option ℚ := none
  benchmark : Option ℚ := none
  prediction : Option ℚ := none

/-! ## Row-to-PricePoint adapter (`handleCustomDataProcessed`), C4

The source maps each ingested row through

```
date:   item.date  || item.Date  || today
open:   item.open  || item.Open  || item.close || item.Close || 100
high:   item.high  || item.High  || item.close || item.Close || 100
low:    item.low   || item.Low   || item.close || item.Close || 100
close:  item.close || item.Close || item.price || item.Price || 100
volume: item.volume|| item.Volume|| Math.floor(Math.random() * 1000000)
```

JavaScript `||` falls through on `undefined` and on the number `0`
(and on the empty string), which `jsOr`/`jsOrS` model. -/

/-- JavaScript `a || b` for an optional numeric field: `b` when the
field is absent or `0`. -/
def jsOr (a : Option ℚ) (b : ℚ) : ℚ :=
  match a with
  | some v => if v = 0 then b else v
  | none => b

/-- JavaScript `a || b` for an optional string field: `b` when the
field is absent or empty. -/
def jsOrS (a : Option String) (b : String) : String :=
  match a with
  | some s => if s = "" then b else s
  | none => b

/-- An ingested row as read by the adapter: only the aliases the
adapter consults, each possibly absent.  The source's field `x`/`X` is
rendered `rx`/`rX`. -/
structure RawRow where
  rdate : Option String := none
  rDate : Option String := none
  ropen : Option ℚ := none
  rOpen : Option ℚ := none
  rhigh : Option ℚ := none
  rHigh : Option ℚ := none
  rlow : Option ℚ := none
  rLow : Option ℚ := none
  rclose : Option ℚ := none
  rClose : Option ℚ := none
  rprice : Option ℚ := none
  rPrice : Option ℚ := none
  rvolume : Option ℚ := none
  rVolume : Option ℚ := none

/-- The row-to-PricePoint mapping inside `handleCustomDataProcessed`.
`volumeFill` stands for the draw `Math.floor(Math.random() * 1000000)`
and `today` for `new Date().toISOString().split('T')[0]`. -/
def convertRow (volumeFill : ℚ) (today : String) (r : RawRow) : StockData :=
  { date := jsOrS r.rdate (jsOrS r.rDate today)
    openP := jsOr r.ropen (jsOr r.rOpen (jsOr r.rclose (jsOr r.rClose 100)))
    high := jsOr r.rhigh (jsOr r.rHigh (jsOr r.rclose (jsOr r.rClose 100)))
    low := jsOr r.rlow (jsOr r.rLow (jsOr r.rclose (jsOr r.rClose 100)))
    close := jsOr r.rclose (jsOr r.rClose (jsOr r.rprice (jsOr r.rPrice 100)))
    volume := jsOr r.rvolume (jsOr r.rVolume volumeFill) }

/-- A row whose only field is `price = 50`: `close` resolves through the
`price` alias, but the `open`/`high`/`low` fallback chains do not
consult `price`. -/
def priceOnlyRow : RawRow := { rprice := some 50 }

/-- `C4` (counterexample): on a row carrying only `price = 50` (so it
lacks its own open/high/low fields and `close` resolves through the
`price` alias to 50), the adapter sets `open` to the default 100, not to
the resolved `close` value. -/
theorem convertRow_price_alias_not_propagated :
    (convertRow 42 "2020-01-01" priceOnlyRow).close = 50
      ∧ (convertRow 42 "2020-01-01" priceOnlyRow).openP = 100
      ∧ priceOnlyRow.ropen = none ∧ priceOnlyRow.rOpen = none
      ∧ priceOnlyRow.rhigh = none ∧ priceOnlyRow.rHigh = none
      ∧ priceOnlyRow.rlow = none ∧ priceOnlyRow.rLow = none
      ∧ (convertRow 42 "2020-01-01" priceOnlyRow).openP
          ≠ (convertRow 42 "2020-01-01" priceOnlyRow).close := by
  refine ⟨?_, ?_, rfl, rfl, rfl, rfl, rfl, rfl, ?_⟩ <;>
    norm_num [convertRow, priceOnlyRow, jsOr]

/-- `C4` (amended): the adapter sets `open`/`high`/`low` to the resolved
`close` value when the row lacks its own open/high/low fields *and*
`close` resolves through the `close` or `Close` fields; when `close`
resolves only through the `price` or `Price` aliases, `open`/`high`/`low`
all fall back to 100 instead.  `volume` defaults to the random filler
when absent, and `close` defaults to 100 when no close/price alias
resolves. -/
theorem convertRow_defaults (volumeFill : ℚ) (today : String) (r : RawRow) (c : ℚ) :
    (r.ropen = none → r.rOpen = none → r.rhigh = none → r.rHigh = none →
      r.rlow = none → r.rLow = none → r.rclose = some c → c ≠ 0 →
      (convertRow volumeFill today r).openP = c
        ∧ (convertRow volumeFill today r).high = c
        ∧ (convertRow volumeFill today r).low = c
        ∧ (convertRow volumeFill today r).close = c)
    ∧ (r.ropen = none → r.rOpen = none → r.rhigh = none → r.rHigh = none →
        r.rlow = none → r.rLow = none → r.rclose = none → r.rClose = some c → c ≠ 0 →
        (convertRow volumeFill today r).openP = c
          ∧ (convertRow volumeFill today r).high = c
          ∧ (convertRow volumeFill today r).low = c
          ∧ (convertRow volumeFill today r).close = c)
    ∧ (r.ropen = none → r.rOpen = none → r.rhigh = none → r.rHigh = none →
        r.rlow = none → r.rLow = none → r.rclose = none → r.rClose = none →
        r.rprice = some c → c ≠ 0 →
        (convertRow volumeFill today r).openP = 100
          ∧ (convertRow volumeFill today r).high = 100
          ∧ (convertRow volumeFill today r).low = 100
          ∧ (convertRow volumeFill today r).close = c)
    ∧ (r.ropen = none → r.rOpen = none → r.rhigh = none → r.rHigh = none →
        r.rlow = none → r.rLow = none → r.rclose = none → r.rClose = none →
        r.rprice = none → r.rPrice = some c → c ≠ 0 →
        (convertRow volumeFill today r).openP = 100
          ∧ (convertRow volumeFill today r).high = 100
          ∧ (convertRow volumeFill today r).low = 100
          ∧ (convertRow volumeFill today r).close = c)
    ∧ (r.rvolume = none → r.rVolume = none →
        (convertRow volumeFill today r).volume = volumeFill)
    ∧ (r.rclose = none → r.rClose = none → r.rprice = none → r.rPrice = none →
        (convertRow volumeFill today r).close = 100) := by
  refine ⟨?_, ?_, ?_, ?_, ?_, ?_⟩
  · intro h1 h2 h3 h4 h5 h6 h7 h8
    refine ⟨?_, ?_, ?_, ?_⟩ <;> simp [convertRow, jsOr, h1, h2, h3, h4, h5, h6, h7, h8]
  · intro h1 h2 h3 h4 h5 h6 h7 h8 h9
    refine ⟨?_, ?_, ?_, ?_⟩ <;>
      simp [convertRow, jsOr, h1, h2, h3, h4, h5, h6, h7, h8, h9]
  · intro h1 h2 h3 h4 h5 h6 h7 h8 h9 h10
    refine ⟨?_, ?_, ?_, ?_⟩ <;>
      simp [convertRow, jsOr, h1, h2, h3, h4, h5, h6, h7, h8, h9, h10]
  · intro h1 h2 h3 h4 h5 h6 h7 h8 h9 h10 h11
    refine ⟨?_, ?_, ?_, ?_⟩ <;>
      simp [convertRow, jsOr, h1, h2, h3, h4, h5, h6, h7, h8, h9, h10, h11]
  · intro h1 h2
    simp [convertRow, jsOr, h1, h2]
  · intro h1 h2 h3 h4
    simp [convertRow, jsOr, h1, h2, h3, h4]

/-- A row carrying only `close = 7` (and no volume). -/
def closeOnlyRow : RawRow := { rclose := some 7 }

/-- A row carrying only `Close = 9`. -/
def closeUpperRow : RawRow := { rClose := some 9 }

/-- A row carrying only `Price = 11`. -/
def priceUpperRow : RawRow := { rPrice := some 11 }

/-- A row with no recognized numeric field at all. -/
def emptyRow : RawRow := {}

/-- Witness for `convertRow_defaults` at concrete rows: a `close`-only
row propagates 7 into open/high/low and takes the volume filler; a
`Close`-only row propagates 9; the `price`-only and `Price`-only rows
set open/high/low to 100 while `close` takes the alias value; an empty
row defaults `close` to 100. -/
theorem convertRow_defaults_witness :
    ((convertRow 42 "2020-01-01" closeOnlyRow).openP = 7
      ∧ (convertRow 42 "2020-01-01" closeOnlyRow).high = 7
      ∧ (convertRow 42 "2020-01-01" closeOnlyRow).low = 7
      ∧ (convertRow 42 "2020-01-01" closeOnlyRow).close = 7)
    ∧ ((convertRow 42 "2020-01-01" closeUpperRow).openP = 9
      ∧ (convertRow 42 "2020-01-01" closeUpperRow).high = 9
      ∧ (convertRow 42 "2020-01-01" closeUpperRow).low = 9
      ∧ (convertRow 42 "2020-01-01" closeUpperRow).close = 9)
    ∧ ((convertRow 42 "2020-01-01" priceOnlyRow).openP = 100
      ∧ (convertRow 42 "2020-01-01" priceOnlyRow).high = 100
      ∧ (convertRow 42 "2020-01-01" priceOnlyRow).low = 100
      ∧ (convertRow 42 "2020-01-01" priceOnlyRow).close = 50)
    ∧ ((convertRow 42 "2020-01-01" priceUpperRow).openP = 100
      ∧ (convertRow 42 "2020-01-01" priceUpperRow).high = 100
      ∧ (convertRow 42 "2020-01-01" priceUpperRow).low = 100
      ∧ (convertRow 42 "2020-01-01" priceUpperRow).close = 11)
    ∧ (convertRow 42 "2020-01-01" closeOnlyRow).volume = 42
    ∧ (convertRow 42 "2020-01-01" emptyRow).close = 100 :=
  ⟨(convertRow_defaults 42 "2020-01-01" closeOnlyRow 7).1
      rfl rfl rfl rfl rfl rfl rfl (by norm_num),
    (convertRow_defaults 42 "2020-01-01" closeUpperRow 9).2.1
      rfl rfl rfl rfl rfl rfl rfl rfl (by norm_num),
    (convertRow_defaults 42 "2020-01-01" priceOnlyRow 50).2.2.1
      rfl rfl rfl rfl rfl rfl rfl rfl rfl (by norm_num),
    (convertRow_defaults 42 "2020-01-01" priceUpperRow 11).2.2.2.1
      rfl rfl rfl rfl rfl rfl rfl rfl rfl rfl (by norm_num),
    (convertRow_defaults 42 "2020-01-01" closeOnlyRow 7).2.2.2.2.1 rfl rfl,
    (convertRow_defaults 42 "2020-01-01" emptyRow 0).2.2.2.2.2 rfl rfl rfl rfl⟩

/-! ## Technical indicator engine (`calculateTechnicalIndicators`), C5, C10

The source copies the array (`[...data]`) and then, for each index `i`,
assigns derived fields in place when the window condition holds (leaving
the field untouched otherwise): `ma20` for `i ≥ 19`, `ma50` for
`i ≥ 49`, `rsi` for `i ≥ 14`, `macd` for `i ≥ 26`, `macdSignal` for
`i ≥ 34` (nested inside `i ≥ 26`), Bollinger bands for `i ≥ 19`,
`portfolio`/`benchmark` always, and `prediction` with probability 0.5.
`rand i k` is the `k`-th `Math.random()` call of iteration `i`
(`k = 0`: portfolio, `k = 1`: benchmark, `k = 2`: the prediction gate,
`k = 3`: the prediction value). -/

/-- Placeholder point used for (never taken) out-of-range array reads. -/
def dfltPoint : StockData :=
  { date := "", openP := 0, high := 0, low := 0, close := 0, volume := 0 }

/-- 20-day moving average at index `i ≥ 19`:
mean of `close` over `result.slice(i - 19, i + 1)`. -/
def ma20Calc (closes : List ℚ) (i : ℕ) : ℚ :=
  ((closes.drop (i - 19)).take 20).sum / 20

/-- 50-day moving average at index `i ≥ 49`. -/
def ma50Calc (closes : List ℚ) (i : ℕ) : ℚ :=
  ((closes.drop (i - 49)).take 50).sum / 50

/-- The 14 one-day deltas `close[j] - close[j-1]`, `j = i-13 .. i`. -/
def rsiChanges (closes : List ℚ) (i : ℕ) : List ℚ :=
  (List.range' (i - 13) 14).map (fun j => closes.getD j 0 - closes.getD (j - 1) 0)

/-- 14-period RSI at index `i ≥ 14`: positive deltas are gains, the
other deltas contribute their absolute value as losses; the zero
average loss is replaced by 1 (`avgLoss || 1`). -/
def rsiCalc (closes : List ℚ) (i : ℕ) : ℚ :=
  let changes := rsiChanges closes i
  let gains := changes.filter (fun c => decide (0 < c))
  let losses := (changes.filter (fun c => !(decide (0 < c)))).map (fun c => |c|)
  let avgGain := gains.sum / 14
  let avgLoss := losses.sum / 14
  let rs := avgGain / (if avgLoss = 0 then 1 else avgLoss)
  100 - 100 / (1 + rs)

/-- `calculateEMA` from the source: seed with the first close and fold
the multiplier recursion over the rest.  (The source would read
`data[0].close` of an empty array; it is only ever called on nonempty
slices, and the `[]` case is an arbitrary total-function filler.) -/
def calculateEMA (closes : List ℚ) (period : ℕ) : ℚ :=
  match closes with
  | [] => 0
  | c :: rest =>
    let multiplier : ℚ := 2 / (period + 1)
    rest.foldl (fun ema x => x * multiplier + ema * (1 - multiplier)) c

/-- MACD at index `i ≥ 26`: 12-period EMA minus 26-period EMA, each
recomputed from scratch over the prefix `slice(0, i + 1)`. -/
def macdCalc (closes : List ℚ) (i : ℕ) : ℚ :=
  calculateEMA (closes.take (i + 1)) 12 - calculateEMA (closes.take (i + 1)) 26

/-- The `macd` field of `result[j]` as read during the pass: already
assigned for `j ≥ 26`, otherwise whatever the input carried. -/
def macdField (data : List StockData) (closes : List ℚ) (j : ℕ) : Option ℚ :=
  if 26 ≤ j then some (macdCalc closes j) else (data.getD j dfltPoint).macd

/-- MACD signal at index `i ≥ 34`: plain average of the 9 trailing
`macd` values (`item.macd || 0`). -/
def macdSignalCalc (data : List StockData) (closes : List ℚ) (i : ℕ) : ℚ :=
  ((List.range' (i - 8) 9).map (fun j => (macdField data closes j).getD 0)).sum / 9

/-- Bollinger 20-period simple moving average at index `i ≥ 19`. -/
def bbSMA (closes : List ℚ) (i : ℕ) : ℚ :=
  ((closes.drop (i - 19)).take 20).sum / 20

/-- Bollinger population variance (divisor 20) at index `i ≥ 19`. -/
def bbVariance (closes : List ℚ) (i : ℕ) : ℚ :=
  let slice := (closes.drop (i - 19)).take 20
  let sma := slice.sum / 20
  (slice.map (fun c => (c - sma) ^ 2)).sum / 20

/-- `stdDev = Math.sqrt(variance)`. -/
noncomputable def bbStdDev (closes : List ℚ) (i : ℕ) : ℝ :=
  Real.sqrt ((bbVariance closes i : ℚ) : ℝ)

/-- The point at index `i` after the indicator pass: the base point with
each derived field assigned exactly under the source's window
condition. -/
noncomputable def annotatePoint (rand : ℕ → ℕ → ℚ) (data : List StockData) (i : ℕ) :
    StockData :=
  let base := data.getD i dfltPoint
  let closes := data.map (fun p => p.close)
  { base with
    ma20 := if 19 ≤ i then some (ma20Calc closes i) else base.ma20
    ma50 := if 49 ≤ i then some (ma50Calc closes i) else base.ma50
    rsi := if 14 ≤ i then some (rsiCalc closes i) else base.rsi
    macd := if 26 ≤ i then some (macdCalc closes i) else base.macd
    macdSignal :=
      if 26 ≤ i then
        (if 34 ≤ i then some (macdSignalCalc data closes i) else base.macdSignal)
      else base.macdSignal
    upperBB := if 19 ≤ i then some ((bbSMA closes i : ℝ) + 2 * bbStdDev closes i)
      else base.upperBB
    lowerBB := if 19 ≤ i then some ((bbSMA closes i : ℝ) - 2 * bbStdDev closes i)
      else base.lowerBB
    portfolio := some (base.close * (1 + rand i 0 * 0.1))
    benchmark := some (base.close * (1 + rand i 1 * 0.05))
    prediction := if rand i 2 > 0.5 then some (base.close * (1 + (rand i 3 - 0.5) * 0.1))
      else base.prediction }

/-- `calculateTechnicalIndicators` from `stockAnalytics.ts`. -/
noncomputable def calculateTechnicalIndicators (rand : ℕ → ℕ → ℚ)
    (data : List StockData) : List StockData :=
  (List.range data.length).map (fun i => annotatePoint rand data i)

/-- `C10`: the annotation pass returns a series of the same length with
every point's base fields (`date`, `open`, `high`, `low`, `close`,
`volume`) unchanged and in the same order; only derived fields are
assigned. -/
theorem annotate_preserves_base (rand : ℕ → ℕ → ℚ) (data : List StockData)
    (d : StockData) (i : ℕ) :
    (calculateTechnicalIndicators rand data).length = data.length
      ∧ ((calculateTechnicalIndicators rand data).getD i d).date = (data.getD i d).date
      ∧ ((calculateTechnicalIndicators rand data).getD i d).openP = (data.getD i d).openP
      ∧ ((calculateTechnicalIndicators rand data).getD i d).high = (data.getD i d).high
      ∧ ((calculateTechnicalIndicators rand data).getD i d).low = (data.getD i d).low
      ∧ ((calculateTechnicalIndicators rand data).getD i d).close = (data.getD i d).close
      ∧ ((calculateTechnicalIndicators rand data).getD i d).volume
          = (data.getD i d).volume := by
  have hlen : (calculateTechnicalIndicators rand data).length = data.length := by
    simp [calculateTechnicalIndicators]
  by_cases hi : i < data.length
  · have hget : (calculateTechnicalIndicators rand data).getD i d
        = annotatePoint rand data i := by
      rw [List.getD_eq_getElem _ _ (by rw [hlen]; exact hi)]
      simp [calculateTechnicalIndicators]
    refine ⟨hlen, ?_, ?_, ?_, ?_, ?_, ?_⟩ <;>
      (rw [hget]; simp [annotatePoint, List.getElem?_eq_getElem hi])
  · have hd1 : (calculateTechnicalIndicators rand data).getD i d = d := by
      apply List.getD_eq_default
      rw [hlen]; omega
    have hd2 : data.getD i d = d := by
      apply List.getD_eq_default; omega
    rw [hd1, hd2]
    exact ⟨hlen, rfl, rfl, rfl, rfl, rfl, rfl⟩

/-! ## C5: window presence and value bounds of the derived fields -/

/-- The RSI value is always in `[0, 100]`: gains and losses average to
nonnegative rationals, the zero-loss guard keeps the denominator
positive, so `rs ≥ 0` and `100 - 100/(1+rs) ∈ [0, 100)`. -/
theorem rsiCalc_bounds (closes : List ℚ) (i : ℕ) :
    0 ≤ rsiCalc closes i ∧ rsiCalc closes i ≤ 100 := by
  unfold rsiCalc
  have hg : 0 ≤ ((rsiChanges closes i).filter (fun c => decide (0 < c))).sum := by
    refine List.sum_nonneg (fun x hx => ?_)
    have hx2 := (List.mem_filter.mp hx).2
    simp only [decide_eq_true_eq] at hx2
    exact hx2.le
  have hl : 0 ≤ (((rsiChanges closes i).filter
      (fun c => !(decide (0 < c)))).map (fun c => |c|)).sum := by
    refine List.sum_nonneg (fun x hx => ?_)
    obtain ⟨c, _, rfl⟩ := List.mem_map.mp hx
    exact abs_nonneg c
  set G := ((rsiChanges closes i).filter (fun c => decide (0 < c))).sum / 14 with hG
  set L := (((rsiChanges closes i).filter
      (fun c => !(decide (0 < c)))).map (fun c => |c|)).sum / 14 with hL
  have hG0 : 0 ≤ G := by rw [hG]; positivity
  have hL0 : 0 ≤ L := by rw [hL]; positivity
  have hD : 0 < (if L = 0 then (1 : ℚ) else L) := by
    split_ifs with h
    · norm_num
    · exact lt_of_le_of_ne hL0 (Ne.symm h)
  have hrs : 0 ≤ G / (if L = 0 then (1 : ℚ) else L) := div_nonneg hG0 hD.le
  set rs := G / (if L = 0 then (1 : ℚ) else L)
  have h1 : (0 : ℚ) < 1 + rs := by linarith
  have h2 : 100 / (1 + rs) ≤ 100 := div_le_self (by norm_num) (by linarith)
  have h3 : 0 < 100 / (1 + rs) := div_pos (by norm_num) h1
  constructor <;> linarith

/-- Convenience accessor: the annotated point at index `i`. -/
noncomputable def annotatedAt (rand : ℕ → ℕ → ℚ) (data : List StockData) (i : ℕ) :
    StockData :=
  (calculateTechnicalIndicators rand data).getD i dfltPoint

theorem annotatedAt_eq (rand : ℕ → ℕ → ℚ) (data : List StockData) (i : ℕ)
    (hi : i < data.length) :
    annotatedAt rand data i = annotatePoint rand data i := by
  unfold annotatedAt calculateTechnicalIndicators
  rw [List.getD_eq_getElem _ _ (by simpa using hi)]
  simp

/-- A point with no derived field attached yet (a raw OHLCV point, as
produced by the generator's day loop or by the row adapter). -/
def rawPoint (p : StockData) : Prop :=
  p.ma20 = none ∧ p.ma50 = none ∧ p.rsi = none ∧ p.upperBB = none ∧ p.lowerBB = none

/-- `C5`: on a raw input series, for every index `i` of the annotated
output, `ma20` is present iff `i ≥ 19`, `ma50` iff `i ≥ 49`, `rsi` iff
`i ≥ 14` (and then lies in `[0,100]`), and the Bollinger bands iff
`i ≥ 19` with `upperBB ≥ lowerBB`; below the minimum index the fields
are absent, not zero. -/
theorem annotate_window_iff (rand : ℕ → ℕ → ℚ) (data : List StockData)
    (hraw : ∀ p ∈ data, rawPoint p) (i : ℕ) (hi : i < data.length) :
    ((annotatedAt rand data i).ma20.isSome ↔ 19 ≤ i)
      ∧ ((annotatedAt rand data i).ma50.isSome ↔ 49 ≤ i)
      ∧ ((annotatedAt rand data i).rsi.isSome ↔ 14 ≤ i)
      ∧ (∀ v, (annotatedAt rand data i).rsi = some v → 0 ≤ v ∧ v ≤ 100)
      ∧ ((annotatedAt rand data i).upperBB.isSome ↔ 19 ≤ i)
      ∧ ((annotatedAt rand data i).lowerBB.isSome ↔ 19 ≤ i)
      ∧ (∀ u l, (annotatedAt rand data i).upperBB = some u →
          (annotatedAt rand data i).lowerBB = some l → l ≤ u) := by
  have hbase_mem : data.getD i dfltPoint ∈ data := by
    rw [List.getD_eq_getElem _ _ hi]
    exact List.getElem_mem hi
  obtain ⟨h20, h50, hr, hub, hlb⟩ := hraw _ hbase_mem
  rw [List.getD_eq_getElem _ _ hi] at h20 h50 hr hub hlb
  have hsome := List.getElem?_eq_getElem hi
  rw [annotatedAt_eq rand data i hi]
  refine ⟨?_, ?_, ?_, ?_, ?_, ?_, ?_⟩
  · by_cases h : 19 ≤ i <;> simp [annotatePoint, h, h20, hsome]
  · by_cases h : 49 ≤ i <;> simp [annotatePoint, h, h50, hsome]
  · by_cases h : 14 ≤ i <;> simp [annotatePoint, h, hr, hsome]
  · intro v hv
    by_cases h : 14 ≤ i
    · simp [annotatePoint, h, hsome] at hv
      rw [← hv]
      exact rsiCalc_bounds _ i
    · simp [annotatePoint, h, hr, hsome] at hv
  · by_cases h : 19 ≤ i <;> simp [annotatePoint, h, hub, hsome]
  · by_cases h : 19 ≤ i <;> simp [annotatePoint, h, hlb, hsome]
  · intro u l hu hl
    by_cases h : 19 ≤ i
    · simp [annotatePoint, h, hsome] at hu hl
      rw [← hu, ← hl]
      have := Real.sqrt_nonneg ((bbVariance (data.map (fun p => p.close)) i : ℚ) : ℝ)
      unfold bbStdDev
      linarith
    · simp [annotatePoint, h, hub, hsome] at hu

/-- A concrete raw point for the `C5` witness. -/
def rawPt : StockData :=
  { date := "2020-01-01", openP := 1, high := 1, low := 1, close := 1, volume := 1 }

/-- Witness for `annotate_window_iff`: 20 copies of a raw point,
index 19. -/
theorem annotate_window_iff_witness :
    ((∀ p ∈ List.replicate 20 rawPt, rawPoint p) ∧ 19 < (List.replicate 20 rawPt).length)
      ∧ (((annotatedAt (fun _ _ => 0) (List.replicate 20 rawPt) 19).ma20.isSome ↔ 19 ≤ 19)
        ∧ ((annotatedAt (fun _ _ => 0) (List.replicate 20 rawPt) 19).ma50.isSome ↔ 49 ≤ 19)
        ∧ ((annotatedAt (fun _ _ => 0) (List.replicate 20 rawPt) 19).rsi.isSome ↔ 14 ≤ 19)
        ∧ (∀ v, (annotatedAt (fun _ _ => 0) (List.replicate 20 rawPt) 19).rsi = some v →
            0 ≤ v ∧ v ≤ 100)
        ∧ ((annotatedAt (fun _ _ => 0) (List.replicate 20 rawPt) 19).upperBB.isSome ↔ 19 ≤ 19)
        ∧ ((annotatedAt (fun _ _ => 0) (List.replicate 20 rawPt) 19).lowerBB.isSome ↔ 19 ≤ 19)
        ∧ (∀ u l, (annotatedAt (fun _ _ => 0) (List.replicate 20 rawPt) 19).upperBB = some u →
            (annotatedAt (fun _ _ => 0) (List.replicate 20 rawPt) 19).lowerBB = some l →
            l ≤ u)) :=
  have hraw : ∀ p ∈ List.replicate 20 rawPt, rawPoint p := fun p hp => by
    rw [List.eq_of_mem_replicate hp]; exact ⟨rfl, rfl, rfl, rfl, rfl⟩
  have hi : 19 < (List.replicate 20 rawPt).length := by simp
  ⟨⟨hraw, hi⟩, annotate_window_iff (fun _ _ => 0) (List.replicate 20 rawPt) hraw 19 hi⟩

/-! ## Backtest (`backtestStrategy`), C9

The source walks `i = 50 .. data.length - 1` holding `capital` (start
10000) and `shares` (start 0).  When all four of
`current.ma20, current.ma50, prev.ma20, prev.ma50` are truthy (present
and nonzero): a golden cross with `capital > 0` buys
`floor(capital / close)` shares; a death cross with `shares > 0`
liquidates.  Every iteration records
`{date, value = capital + shares·close, return = (value-10000)/10000·100}`. -/

/-- The per-day trace record (`return` is a Lean keyword, rendered
`ret`). -/
structure BacktestRecord where
  date : String
  value : ℚ
  ret : ℚ

/-- JavaScript truthiness of an optional numeric field: present and
nonzero. -/
def jsTruthy (o : Option ℚ) : Bool :=
  match o with
  | none => false
  | some v => v != 0

/-- One iteration's `capital`/`shares` update. -/
def backtestStep (capital : ℚ) (shares : ℤ) (cur prv : StockData) : ℚ × ℤ :=
  if jsTruthy cur.ma20 ∧ jsTruthy cur.ma50 ∧ jsTruthy prv.ma20 ∧ jsTruthy prv.ma50 then
    if cur.ma20.getD 0 > cur.ma50.getD 0 ∧ prv.ma20.getD 0 ≤ prv.ma50.getD 0
        ∧ capital > 0 then
      (capital - (⌊capital / cur.close⌋ : ℚ) * cur.close, ⌊capital / cur.close⌋)
    else if cur.ma20.getD 0 < cur.ma50.getD 0 ∧ prv.ma20.getD 0 ≥ prv.ma50.getD 0
        ∧ shares > 0 then
      (capital + (shares : ℚ) * cur.close, 0)
    else (capital, shares)
  else (capital, shares)

/-- The trace loop over the `(current, prev)` pairs. -/
def backtestGo (capital : ℚ) (shares : ℤ) :
    List (StockData × StockData) → List BacktestRecord
  | [] => []
  | (cur, prv) :: rest =>
    let cs := backtestStep capital shares cur prv
    let totalValue := cs.1 + (cs.2 : ℚ) * cur.close
    { date := cur.date, value := totalValue, ret := (totalValue - 10000) / 10000 * 100 }
      :: backtestGo cs.1 cs.2 rest

/-- `backtestStrategy` from `stockAnalytics.ts`: iteration `i` sees
`current = data[i]`, `prev = data[i-1]` for `i = 50 .. length - 1`. -/
def backtestStrategy (data : List StockData) : List BacktestRecord :=
  backtestGo 10000 0 ((data.drop 50).zip (data.drop 49))

theorem backtestStep_nonneg (capital : ℚ) (shares : ℤ) (cur prv : StockData)
    (hc : 0 ≤ capital) (hs : 0 ≤ shares) (hclose : 0 < cur.close) :
    0 ≤ (backtestStep capital shares cur prv).1
      ∧ 0 ≤ (backtestStep capital shares cur prv).2 := by
  unfold backtestStep
  split_ifs with h1 h2 h3
  · have hfl_nonneg : 0 ≤ ⌊capital / cur.close⌋ :=
      Int.le_floor.mpr (by simpa using div_nonneg hc hclose.le)
    have hfl_le : (⌊capital / cur.close⌋ : ℚ) ≤ capital / cur.close := Int.floor_le _
    have hmul : (⌊capital / cur.close⌋ : ℚ) * cur.close ≤ capital := by
      have := mul_le_mul_of_nonneg_right hfl_le hclose.le
      rwa [div_mul_cancel₀ _ hclose.ne'] at this
    exact ⟨by simpa using by linarith, by simpa using hfl_nonneg⟩
  · refine ⟨?_, le_refl 0⟩
    show (0 : ℚ) ≤ capital + (shares : ℚ) * cur.close
    have : (0 : ℚ) ≤ (shares : ℚ) * cur.close :=
      mul_nonneg (by exact_mod_cast hs) hclose.le
    linarith
  · exact ⟨hc, hs⟩
  · exact ⟨hc, hs⟩

theorem backtestGo_spec (pairs : List (StockData × StockData)) :
    ∀ (capital : ℚ) (shares : ℤ), 0 ≤ capital → 0 ≤ shares →
      (∀ pr ∈ pairs, 0 < pr.1.close) →
      (backtestGo capital shares pairs).length = pairs.length
        ∧ ∀ rec ∈ backtestGo capital shares pairs,
            0 ≤ rec.value ∧ rec.ret = (rec.value - 10000) / 10000 * 100 := by
  induction pairs with
  | nil => intro capital shares _ _ _; simp [backtestGo]
  | cons pr rest ih =>
    intro capital shares hc hs hpos
    obtain ⟨cur, prv⟩ := pr
    have hcl : 0 < cur.close := hpos (cur, prv) (List.mem_cons_self _ _)
    obtain ⟨hc', hs'⟩ := backtestStep_nonneg capital shares cur prv hc hs hcl
    have hrest := ih (backtestStep capital shares cur prv).1
      (backtestStep capital shares cur prv).2 hc' hs'
      (fun q hq => hpos q (List.mem_cons_of_mem _ hq))
    constructor
    · simp [backtestGo, hrest.1]
    · intro rec hrec
      simp only [backtestGo] at hrec
      rcases List.mem_cons.mp hrec with h | h
      · subst h
        refine ⟨?_, rfl⟩
        exact add_nonneg hc' (mul_nonneg (by exact_mod_cast hs') hcl.le)
      · exact hrest.2 rec h

/-- `C9`: for every annotated series of length ≥ 50 with positive close
prices, the backtest trace has exactly `length - 50` records, every
record's portfolio value `capital + shares·close` is nonnegative, and
every record's return equals `(value - 10000)/10000·100`. -/
theorem backtest_invariants (data : List StockData) (h50 : 50 ≤ data.length)
    (hpos : ∀ p ∈ data, 0 < p.close) :
    (backtestStrategy data).length = data.length - 50
      ∧ ∀ rec ∈ backtestStrategy data,
          0 ≤ rec.value ∧ rec.ret = (rec.value - 10000) / 10000 * 100 := by
  have hpairs : ∀ pr ∈ (data.drop 50).zip (data.drop 49), 0 < pr.1.close := by
    intro pr hpr
    obtain ⟨a, b⟩ := pr
    have hmem := (List.mem_zip hpr).1
    exact hpos a (List.drop_subset 50 data hmem)
  have hspec := backtestGo_spec ((data.drop 50).zip (data.drop 49)) 10000 0
    (by norm_num) le_rfl hpairs
  refine ⟨?_, hspec.2⟩
  show (backtestGo 10000 0 ((data.drop 50).zip (data.drop 49))).length = data.length - 50
  rw [hspec.1, List.length_zip, List.length_drop, List.length_drop]
  omega

/-- A raw annotated point for the `C9` witness (all indicator fields
absent, so the strategy never trades). -/
def btPt : StockData :=
  { date := "2021-01-01", openP := 2, high := 2, low := 2, close := 2, volume := 5 }

/-- Witness for `backtest_invariants`: 51 copies of a positive-close
point give a one-record trace. -/
theorem backtest_invariants_witness :
    (50 ≤ (List.replicate 51 btPt).length ∧ ∀ p ∈ List.replicate 51 btPt, 0 < p.close)
      ∧ ((backtestStrategy (List.replicate 51 btPt)).length
            = (List.replicate 51 btPt).length - 50
        ∧ ∀ rec ∈ backtestStrategy (List.replicate 51 btPt),
            0 ≤ rec.value ∧ rec.ret = (rec.value - 10000) / 10000 * 100) :=
  have h50 : 50 ≤ (List.replicate 51 btPt).length := by simp
  have hpos : ∀ p ∈ List.replicate 51 btPt, 0 < p.close := fun p hp => by
    rw [List.eq_of_mem_replicate hp]; norm_num [btPt]
  ⟨⟨h50, hpos⟩, backtest_invariants (List.replicate 51 btPt) h50 hpos⟩

/-! ## Option pricer (`calculateOptionPrice`), C6, C7

The source computes `T = days/365`, `r = rate/100`, `σ = vol/100`,
Black-Scholes `d1`/`d2`, an approximate normal CDF, the base call
price, an in-the-money premium or an out-of-the-money floor, clamps the
call at 0.01, derives the put by parity *from the clamped call*, and
clamps both (the call a second time) when storing the quote. -/

/-- `Math.sign`. -/
noncomputable def mathSign (x : ℝ) : ℝ := if x < 0 then -1 else if 0 < x then 1 else 0

/-- The source's `normCDF`:
`0.5 * (1 + Math.sign(x) * Math.sqrt(1 - Math.exp(-2 * x * x / Math.PI)))`. -/
noncomputable def normCDF (x : ℝ) : ℝ :=
  0.5 * (1 + mathSign x * Real.sqrt (1 - Real.exp (-2 * x * x / Real.pi)))

/-- The base Black-Scholes call price
`S * normCDF(d1) - K * exp(-r*T) * normCDF(d2)`. -/
noncomputable def optionBasePrice (S K days rate vol : ℝ) : ℝ :=
  let T := days / 365
  let r := rate / 100
  let sigma := vol / 100
  let d1 := (Real.log (S / K) + (r + 0.5 * sigma * sigma) * T) / (sigma * Real.sqrt T)
  let d2 := d1 - sigma * Real.sqrt T
  S * normCDF d1 - K * Real.exp (-r * T) * normCDF d2

/-- The call price after the "realism" adjustment: in the money, add
`volatilityPremium * (1 + moneynessFactor)`; out of the money, floor at
`timeDecayFactor * sigma * S * 0.05`. -/
noncomputable def optionAdjustedCall (S K days rate vol : ℝ) : ℝ :=
  let T := days / 365
  let sigma := vol / 100
  let timeDecayFactor := max 0.1 T
  let volatilityPremium := sigma * S * 0.1
  let moneynessFactor := |S - K| / K
  if S > K then optionBasePrice S K days rate vol + volatilityPremium * (1 + moneynessFactor)
  else max (optionBasePrice S K days rate vol) (timeDecayFactor * sigma * S * 0.05)

/-- `callPrice` after `callPrice = Math.max(callPrice, 0.01)`. -/
noncomputable def optionCallPrice (S K days rate vol : ℝ) : ℝ :=
  max (optionAdjustedCall S K days rate vol) 0.01

/-- `putPrice = callPrice + K * Math.exp(-r * T) - S` (from the already
clamped call). -/
noncomputable def optionPutRaw (S K days rate vol : ℝ) : ℝ :=
  optionCallPrice S K days rate vol + K * Real.exp (-(rate / 100) * (days / 365)) - S

/-- The option quote record stored by `setOptionPricing`. -/
structure OptionQuote where
  call : ℝ
  put : ℝ

/-- `calculateOptionPrice` from the dashboard component:
`{ call: Math.max(callPrice, 0.01), put: Math.max(putPrice, 0.01) }`. -/
noncomputable def calculateOptionPrice (S K days rate vol : ℝ) : OptionQuote :=
  { call := max (optionCallPrice S K days rate vol) 0.01
    put := max (optionPutRaw S K days rate vol) 0.01 }

/-- `C6`: for every valid input the quote satisfies `call ≥ 0.01` and
`put ≥ 0.01`, and whenever neither the call floor nor the put floor is
binding, `put - call = K·e^(-rT) - S` (parity with respect to the
pricer's own intermediate call price). -/
theorem optionPrice_floors_and_parity (S K days rate vol : ℝ)
    (hS : 0 < S) (hK : 0 < K) (hdays : 0 < days) :
    0.01 ≤ (calculateOptionPrice S K days rate vol).call
      ∧ 0.01 ≤ (calculateOptionPrice S K days rate vol).put
      ∧ (0.01 ≤ optionAdjustedCall S K days rate vol →
          0.01 ≤ optionPutRaw S K days rate vol →
          (calculateOptionPrice S K days rate vol).put
              - (calculateOptionPrice S K days rate vol).call
            = K * Real.exp (-(rate / 100) * (days / 365)) - S) := by
  refine ⟨le_max_right _ _, le_max_right _ _, fun h1 h2 => ?_⟩
  have hcall : (calculateOptionPrice S K days rate vol).call
      = optionCallPrice S K days rate vol := by
    show max (optionCallPrice S K days rate vol) 0.01 = _
    exact max_eq_left (le_max_right _ _)
  have hput : (calculateOptionPrice S K days rate vol).put
      = optionPutRaw S K days rate vol := by
    show max (optionPutRaw S K days rate vol) 0.01 = _
    exact max_eq_left h2
  rw [hcall, hput, optionPutRaw]
  ring

/-- Witness for `optionPrice_floors_and_parity` at
`S = 1, K = 2, days = 365, rate = 0, vol = 25` (out of the money, zero
rate: neither floor binds beyond its defining `max`). -/
theorem optionPrice_floors_and_parity_witness :
    ((0 : ℝ) < 1 ∧ (0 : ℝ) < 2 ∧ (0 : ℝ) < 365
        ∧ (0.01 : ℝ) ≤ optionAdjustedCall 1 2 365 0 25
        ∧ (0.01 : ℝ) ≤ optionPutRaw 1 2 365 0 25)
      ∧ (0.01 ≤ (calculateOptionPrice 1 2 365 0 25).call
        ∧ 0.01 ≤ (calculateOptionPrice 1 2 365 0 25).put
        ∧ (0.01 ≤ optionAdjustedCall 1 2 365 0 25 →
            0.01 ≤ optionPutRaw 1 2 365 0 25 →
            (calculateOptionPrice 1 2 365 0 25).put
                - (calculateOptionPrice 1 2 365 0 25).call
              = 2 * Real.exp (-((0 : ℝ) / 100) * (365 / 365)) - 1)) :=
  have hadj : (0.01 : ℝ) ≤ optionAdjustedCall 1 2 365 0 25 := by
    rw [optionAdjustedCall]
    rw [if_neg (by norm_num : ¬((1 : ℝ) > 2))]
    refine le_trans ?_ (le_max_right _ _)
    rw [show ((365 : ℝ) / 365) = 1 from by norm_num,
      max_eq_right (by norm_num : (0.1 : ℝ) ≤ 1)]
    norm_num
  have hput : (0.01 : ℝ) ≤ optionPutRaw 1 2 365 0 25 := by
    rw [optionPutRaw]
    rw [show (-((0 : ℝ) / 100) * (365 / 365)) = 0 from by norm_num, Real.exp_zero]
    have hcp : (0.01 : ℝ) ≤ optionCallPrice 1 2 365 0 25 := le_max_right _ _
    linarith
  ⟨⟨by norm_num, by norm_num, by norm_num, hadj, hput⟩,
    optionPrice_floors_and_parity 1 2 365 0 25 (by norm_num) (by norm_num) (by norm_num)⟩

/-- Modelled from the spec (`C7` reference definition): with
`T = days/365`, `r = rate/100`, `σ = vol/100`,
`d1 = (ln(S/K) + (r+σ²/2)T)/(σ√T)`, `d2 = d1 − σ√T`,
`Φ(x) = 0.5(1 + sign(x)·√(1 − e^(−2x²/π)))`, the base price
`S·Φ(d1) − K·e^(−rT)·Φ(d2)`; if `S > K` increased by
`σ·S·0.1·(1 + |S−K|/K)`, otherwise floored at `max(0.1,T)·σ·S·0.05`;
finally floored at 0.01. -/
noncomputable def specRefCallPrice (S K days rate vol : ℝ) : ℝ :=
  let T := days / 365
  let r := rate / 100
  let sigma := vol / 100
  let d1 := (Real.log (S / K) + (r + sigma ^ 2 / 2) * T) / (sigma * Real.sqrt T)
  let d2 := d1 - sigma * Real.sqrt T
  let phi := fun x : ℝ =>
    0.5 * (1 + mathSign x * Real.sqrt (1 - Real.exp (-2 * x ^ 2 / Real.pi)))
  let base := S * phi d1 - K * Real.exp (-r * T) * phi d2
  let adjusted := if S > K then base + sigma * S * 0.1 * (1 + |S - K| / K)
    else max base (max 0.1 T * sigma * S * 0.05)
  max adjusted 0.01

/-- `C7`: the pricer's returned call price coincides with the spec's
reference definition for all inputs (in particular all valid ones);
the source's second `Math.max(…, 0.01)` is idempotent. -/
theorem optionCall_matches_reference (S K days rate vol : ℝ) :
    (calculateOptionPrice S K days rate vol).call = specRefCallPrice S K days rate vol := by
  have hphi : ∀ x : ℝ,
      0.5 * (1 + mathSign x * Real.sqrt (1 - Real.exp (-2 * x ^ 2 / Real.pi)))
        = normCDF x := by
    intro x
    unfold normCDF
    rw [show (-2 : ℝ) * x ^ 2 / Real.pi = -2 * x * x / Real.pi from by ring]
  have hd1 : (Real.log (S / K) + (rate / 100 + (vol / 100) ^ 2 / 2) * (days / 365))
        / (vol / 100 * Real.sqrt (days / 365))
      = (Real.log (S / K) + (rate / 100 + 0.5 * (vol / 100) * (vol / 100)) * (days / 365))
        / (vol / 100 * Real.sqrt (days / 365)) := by ring_nf
  show max (optionCallPrice S K days rate vol) 0.01 = _
  rw [optionCallPrice, max_assoc, max_self]
  unfold specRefCallPrice optionAdjustedCall optionBasePrice
  simp only [hphi, hd1]
